import Mathlib

/-!
# Verification of the MH-Wilds-Tools build-optimization engine

Shallow embedding of the CP-SAT model built by
`src/MH_Wilds_tools/solver.py`.  Decision variables of the model are
represented by their values in a candidate assignment (`Nat` for the
integer variables, which all have lower bound 0, `Bool` for the boolean
variables); every `model.Add(...)`, `only_enforce_if`, `AddMinEquality`
and `AddAbsEquality` call of the source becomes a proposition over those
values.  A "solution admitted by the model" is an assignment satisfying
all of the propositions.
-/

namespace MHWilds

/-! ## Talent catalog data (`talents.parquet` as consumed by `solve`) -/

/-- The `group` column of the talent catalog, with the data each kind of
talent contributes to the model: `Group` talents carry their single
required level (`_set_group_talent_minimum_required_levels` reads the
first catalog level), `Series` talents carry their sorted list of
threshold levels (`talent_series` sorted by `talent_lvl`). -/
inductive TalentKind where
  | weaponEquip : TalentKind
  | group (requiredLvl : Nat) : TalentKind
  | series (thresholds : List Nat) : TalentKind
deriving Repr, DecidableEq

/-- One talent as the model builder sees it: its name, its kind, and its
maximum declared level (`talents_lvl_max`, the largest `lvl` of its
catalog level list). -/
structure TalentDecl where
  name : String
  kind : TalentKind
  maxLvl : Nat
deriving Repr, DecidableEq

/-! ## Per-talent model variables

`_process_armor_pieces`, `_process_charms`, `_set_weapon_talents` and
`_register_jewel_usage` append one bounded integer variable per
contribution to `talent_lists[talent_name]`; `_compute_talent_sums`,
`_add_talent_sum_cap`, the group/series phases and
`_aggregate_all_talents` derive the remaining per-talent variables. -/

/-- The booleans and the candidate-term variable created for one
half-open threshold interval of a series talent in
`_set_series_talent_minimum_required_levels`. -/
structure IntervalAsg where
  geB : Bool        -- var_talent_lvl_is_more_than_inferior
  ltB : Bool        -- var_talent_lvl_is_less_than_superior
  betweenB : Bool   -- var_talent_lvl_is_between
  cand : Nat        -- the interval's candidate effective-level term
deriving Repr, DecidableEq

/-- Values of all per-talent variables of the model for one talent. -/
structure TalentAsg where
  contribs : List Nat       -- values of the entries of talent_lists[name]
  sumVar : Nat              -- talent_sums[name]
  cappedVar : Nat           -- talent_sums_capped[name]
  groupB : Bool             -- group_has_enough_level[name] (Group talents)
  intervals : List IntervalAsg  -- talent_series_interval[name] (Series talents)
  finalVar : Nat            -- talent_sums_final[name]
deriving Repr, DecidableEq

/-- From `_compute_talent_sums`: `talent_sums[name]` is a fresh integer
variable with bounds 0..30 constrained equal to the sum of the
contribution list. -/
def sumConstraint (a : TalentAsg) : Prop :=
  a.sumVar = a.contribs.sum ∧ a.sumVar ≤ 30

instance (a : TalentAsg) : Decidable (sumConstraint a) := by
  unfold sumConstraint; infer_instance

/-- From `_add_talent_sum_cap`: `AddMinEquality` makes the capped variable the
minimum of the talent sum and the talent's maximum declared level. -/
def capConstraint (maxLvl : Nat) (a : TalentAsg) : Prop :=
  a.cappedVar = min a.sumVar maxLvl

instance (m : Nat) (a : TalentAsg) : Decidable (capConstraint m a) := by
  unfold capConstraint; infer_instance

/-- From `_set_group_talent_minimum_required_levels`: the reified pair of
constraints `capped >= lvl  OnlyEnforceIf b` and
`capped < lvl  OnlyEnforceIf b.Not()`. -/
def groupReify (requiredLvl : Nat) (capped : Nat) (b : Bool) : Prop :=
  (b = true → requiredLvl ≤ capped) ∧ (b = false → capped < requiredLvl)

instance (r c : Nat) (b : Bool) : Decidable (groupReify r c b) := by
  unfold groupReify; infer_instance

/-- From `_aggregate_all_talents`, Group branch: the final level equals the
capped sum when the indicator holds and 0 otherwise. -/
def groupAggregate (b : Bool) (capped finalLvl : Nat) : Prop :=
  (b = true → finalLvl = capped) ∧ (b = false → finalLvl = 0)

instance (b : Bool) (c f : Nat) : Decidable (groupAggregate b c f) := by
  unfold groupAggregate; infer_instance

/-! ## Series talents -/

/-- Like `itertools.pairwise`: consecutive pairs of a list. -/
def pairwiseL : List Nat → List (Nat × Nat)
  | a :: b :: rest => (a, b) :: pairwiseL (b :: rest)
  | _ => []

/-- From `_set_series_talent_minimum_required_levels`, which builds the level list
`[0] + sorted thresholds + [30]`. -/
def seriesLevels (thresholds : List Nat) : List Nat :=
  0 :: (thresholds ++ [30])

/-- The half-open intervals a series talent's levels are partitioned
into: consecutive pairs of `seriesLevels`. -/
def seriesIntervals (thresholds : List Nat) : List (Nat × Nat) :=
  pairwiseL (seriesLevels thresholds)

/-- The constraints added for one interval `(lo, hi)` of a series talent
whose capped sum variable has value `s`: the three reified booleans and
the conditional candidate-term equalities, exactly as in
`_set_series_talent_minimum_required_levels` (the candidate variable has
bounds 0..30). -/
def intervalConstraint (s : Nat) (p : Nat × Nat) (a : IntervalAsg) : Prop :=
  (a.geB = true → p.1 ≤ s) ∧ (a.geB = false → s < p.1) ∧
  (a.ltB = true → s < p.2) ∧ (a.ltB = false → p.2 ≤ s) ∧
  (a.betweenB = true → (a.geB = true ∧ a.ltB = true)) ∧
  (a.betweenB = false → ¬(a.geB = true ∧ a.ltB = true)) ∧
  (a.betweenB = true → a.cand = p.1) ∧
  (a.betweenB = false → a.cand = 0) ∧
  a.cand ≤ 30

instance (s : Nat) (p : Nat × Nat) (a : IntervalAsg) :
    Decidable (intervalConstraint s p a) := by
  unfold intervalConstraint; infer_instance

/-- All interval constraints of a series talent with threshold list
`thresholds` and capped sum `s`: one `IntervalAsg` per interval, in
order. -/
def seriesConstraint (thresholds : List Nat) (s : Nat)
    (asgs : List IntervalAsg) : Prop :=
  List.Forall₂ (intervalConstraint s) (seriesIntervals thresholds) asgs

/-! ## The per-talent constraint set -/

/-- Kind-specific constraints: `_set_group_talent_minimum_required_levels`
and the Group branch of `_aggregate_all_talents` for Group talents;
`_set_series_talent_minimum_required_levels` and the series branch of
`_aggregate_all_talents` (final = sum of the interval candidate terms)
for Series talents; for Weapon/Equip talents the final level equals the
capped sum directly. -/
def kindConstraints : TalentKind → TalentAsg → Prop
  | .weaponEquip, a => a.finalVar = a.cappedVar
  | .group req, a =>
      groupReify req a.cappedVar a.groupB ∧
      groupAggregate a.groupB a.cappedVar a.finalVar
  | .series ts, a =>
      seriesConstraint ts a.cappedVar a.intervals ∧
      a.finalVar = (a.intervals.map IntervalAsg.cand).sum

/-- All constraints the model places on one talent's variables
(`talent_sums_final` variables are created with bounds 0..30). -/
def TalentConstraints (d : TalentDecl) (a : TalentAsg) : Prop :=
  sumConstraint a ∧ capConstraint d.maxLvl a ∧
  kindConstraints d.kind a ∧ a.finalVar ≤ 30

/-- Catalog sanity facts the source relies on for series talents: the
thresholds are the talent's own sorted catalog levels, hence each is at
most the talent's maximum declared level, and all catalog levels fit the
hard 0..30 variable bounds used throughout the model. -/
def TalentWellFormed (d : TalentDecl) : Prop :=
  match d.kind with
  | .series ts =>
      ts.Sorted (· ≤ ·) ∧ (∀ t ∈ ts, t ≤ d.maxLvl) ∧ d.maxLvl ≤ 30
  | _ => True

/-! ## Jewel-slot fit -/

/-- Values of the aggregate slot variables of one host pool: `e1..e3`
are the pool's emplacement sums per slot size
(`jewel_emplacement_sums_total_armor` resp.
`jewel_emplacement_sums_total_weapon`), `u1..u3` the summed uses of the
pool's group of jewels per jewel size
(`jewel_uses` in `_add_jewel_usage_constraints`). -/
structure PoolAsg where
  e1 : Nat
  e2 : Nat
  e3 : Nat
  u1 : Nat
  u2 : Nat
  u3 : Nat
deriving Repr, DecidableEq

/-- The three inequalities `_add_jewel_usage_constraints` adds for one
host pool (CP-SAT linear constraints over integers, hence stated in ℤ). -/
def jewelFitConstraints (p : PoolAsg) : Prop :=
  (p.u3 : Int) ≤ (p.e3 : Int) ∧
  (p.u2 : Int) ≤ (p.e2 : Int) + (p.e3 : Int) - (p.u3 : Int) ∧
  (p.u1 : Int) ≤ (p.e1 : Int) + (p.e2 : Int) + (p.e3 : Int)
      - (p.u3 : Int) - (p.u2 : Int)

instance (p : PoolAsg) : Decidable (jewelFitConstraints p) := by
  unfold jewelFitConstraints; infer_instance

/-! ## The whole model -/

/-- One candidate assignment to all model variables the claims are
about: the per-talent variables plus the two pool ledgers. -/
structure BuildAsg where
  talent : String → TalentAsg
  armorPool : PoolAsg   -- Equip-group jewels against the armor slot sums
  weaponPool : PoolAsg  -- Weapon-group jewels against the weapon slot sums

/-- An assignment is admitted by the model iff it satisfies every
per-talent constraint set and both jewel-usage constraint blocks
(`solve` calls `_add_jewel_usage_constraints` once for "Equip" against
the armor pool and once for "Weapon" against the weapon pool). -/
def ModelSat (decls : List TalentDecl) (σ : BuildAsg) : Prop :=
  (∀ d ∈ decls, TalentConstraints d (σ.talent d.name)) ∧
  jewelFitConstraints σ.armorPool ∧
  jewelFitConstraints σ.weaponPool

end MHWilds

namespace MHWilds

/-! ## Forced values of the series-interval variables -/

/-- The value the reified constraints force on one interval's candidate
term: the interval's lower bound when the capped sum lies in the
half-open interval, 0 otherwise. -/
def intervalTerm (s : Nat) (p : Nat × Nat) : Nat :=
  if p.1 ≤ s ∧ s < p.2 then p.1 else 0

/-- The effective level the specification ascribes to a series talent:
the largest threshold not exceeding `s`, and 0 when every threshold
exceeds `s`. -/
def largestThresholdLE (ts : List Nat) (s : Nat) : Nat :=
  (ts.filter (fun t => t ≤ s)).foldr max 0

/-- Walk a list and keep the last element `≤ s`, starting from `x`. -/
def lastLE (x : Nat) (xs : List Nat) (s : Nat) : Nat :=
  match xs with
  | [] => x
  | y :: ys => if y ≤ s then lastLE y ys s else x

lemma interval_forced {s : Nat} {p : Nat × Nat} {a : IntervalAsg}
    (h : intervalConstraint s p a) :
    a.betweenB = (decide (p.1 ≤ s) && decide (s < p.2)) ∧
    a.cand = intervalTerm s p := by
  obtain ⟨h1, h2, h3, h4, h5, h6, h7, h8, -⟩ := h
  have hge : a.geB = decide (p.1 ≤ s) := by
    cases hg : a.geB
    · exact (decide_eq_false (Nat.not_le.mpr (h2 hg))).symm
    · exact (decide_eq_true (h1 hg)).symm
  have hlt : a.ltB = decide (s < p.2) := by
    cases hl : a.ltB
    · exact (decide_eq_false (Nat.not_lt.mpr (h4 hl))).symm
    · exact (decide_eq_true (h3 hl)).symm
  have hbtw : a.betweenB = (a.geB && a.ltB) := by
    cases hbb : a.betweenB
    · have hne := h6 hbb
      cases hg : a.geB <;> cases hl : a.ltB <;> simp_all
    · obtain ⟨hg, hl⟩ := h5 hbb
      simp [hg, hl]
  refine ⟨by rw [hbtw, hge, hlt], ?_⟩
  cases hbb : a.betweenB
  · have hnot : ¬(p.1 ≤ s ∧ s < p.2) := by
      intro hc
      exact h6 hbb ⟨by rw [hge]; exact decide_eq_true hc.1,
                    by rw [hlt]; exact decide_eq_true hc.2⟩
    rw [h8 hbb, intervalTerm, if_neg hnot]
  · obtain ⟨hg, hl⟩ := h5 hbb
    rw [h7 hbb, intervalTerm, if_pos ⟨h1 hg, h3 hl⟩]

lemma forall₂_map_eq {α β γ : Type*} {R : α → β → Prop} {f : β → γ}
    {g : α → γ} {ps : List α} {asgs : List β}
    (h : List.Forall₂ R ps asgs) (hfg : ∀ p a, R p a → f a = g p) :
    asgs.map f = ps.map g := by
  induction h with
  | nil => rfl
  | cons h1 _ ih => simp [hfg _ _ h1, ih]

lemma forall₂_countP_eq {α β : Type*} {R : α → β → Prop} {f : β → Bool}
    {g : α → Bool} {ps : List α} {asgs : List β}
    (h : List.Forall₂ R ps asgs) (hfg : ∀ p a, R p a → f a = g p) :
    asgs.countP f = ps.countP g := by
  induction h with
  | nil => rfl
  | cons h1 _ ih => simp [List.countP_cons, hfg _ _ h1, ih]

/-- The candidate terms of a satisfying series assignment are exactly
the `intervalTerm` values of the intervals. -/
lemma seriesConstraint_cands {ts : List Nat} {s : Nat}
    {asgs : List IntervalAsg} (h : seriesConstraint ts s asgs) :
    asgs.map IntervalAsg.cand = (seriesIntervals ts).map (intervalTerm s) :=
  forall₂_map_eq h (fun _ _ hc => (interval_forced hc).2)

lemma seriesConstraint_betweens {ts : List Nat} {s : Nat}
    {asgs : List IntervalAsg} (h : seriesConstraint ts s asgs) :
    asgs.countP (fun a => a.betweenB) =
      (seriesIntervals ts).countP (fun p => decide (p.1 ≤ s) && decide (s < p.2)) :=
  forall₂_countP_eq h (fun _ _ hc => (interval_forced hc).1)

end MHWilds

namespace MHWilds

/-! ## The interval partition of `[0, 30)` induced by sorted thresholds -/

lemma pairwiseL_term_sum_zero (s : Nat) :
    ∀ (l : List Nat) (y : Nat), (∀ z ∈ y :: l, s < z) →
      ((pairwiseL (y :: l)).map (intervalTerm s)).sum = 0 := by
  intro l
  induction l with
  | nil => intro y _; simp [pairwiseL]
  | cons z l' ih =>
    intro y hy
    have h1 : s < y := hy y (by simp)
    have hrest := ih z (fun w hw => hy w (List.mem_cons_of_mem _ hw))
    simp only [pairwiseL, List.map_cons, List.sum_cons, hrest]
    simp [intervalTerm, Nat.not_le.mpr h1]

lemma pairwiseL_term_sum (s : Nat) :
    ∀ (xs : List Nat) (x : Nat),
      List.Pairwise (· ≤ ·) (x :: (xs ++ [30])) → x ≤ s → s < 30 →
      ((pairwiseL (x :: (xs ++ [30]))).map (intervalTerm s)).sum = lastLE x xs s := by
  intro xs
  induction xs with
  | nil =>
    intro x _ hx hs
    simp [pairwiseL, intervalTerm, lastLE, hx, hs]
  | cons y ys ih =>
    intro x hp hx hs
    simp only [List.cons_append] at hp ⊢
    have hxy : x ≤ y := (List.pairwise_cons.mp hp).1 y (by simp)
    have hp' : List.Pairwise (· ≤ ·) (y :: (ys ++ [30])) :=
      (List.pairwise_cons.mp hp).2
    have hstep : pairwiseL (x :: y :: (ys ++ [30]))
        = (x, y) :: pairwiseL (y :: (ys ++ [30])) := rfl
    by_cases hy : y ≤ s
    · have hrec := ih y hp' hy hs
      rw [hstep, List.map_cons, List.sum_cons, hrec]
      simp [intervalTerm, Nat.not_lt.mpr hy, lastLE, hy]
    · have h1 : s < y := Nat.not_le.mp hy
      have hall : ∀ z ∈ y :: (ys ++ [30]), s < z := by
        intro z hz
        rcases List.mem_cons.mp hz with rfl | hz'
        · exact h1
        · exact lt_of_lt_of_le h1 ((List.pairwise_cons.mp hp').1 z hz')
      have hzero := pairwiseL_term_sum_zero s (ys ++ [30]) y hall
      rw [hstep, List.map_cons, List.sum_cons, hzero]
      simp [intervalTerm, hx, h1, lastLE, hy]

lemma pairwiseL_count_zero (s : Nat) :
    ∀ (l : List Nat) (y : Nat), (∀ z ∈ y :: l, s < z) →
      (pairwiseL (y :: l)).countP
        (fun p => decide (p.1 ≤ s) && decide (s < p.2)) = 0 := by
  intro l
  induction l with
  | nil => intro y _; simp [pairwiseL]
  | cons z l' ih =>
    intro y hy
    have h1 : s < y := hy y (by simp)
    have hrest := ih z (fun w hw => hy w (List.mem_cons_of_mem _ hw))
    simp only [pairwiseL, List.countP_cons, hrest]
    simp [Nat.not_le.mpr h1]

lemma pairwiseL_count_one (s : Nat) :
    ∀ (xs : List Nat) (x : Nat),
      List.Pairwise (· ≤ ·) (x :: (xs ++ [30])) → x ≤ s → s < 30 →
      (pairwiseL (x :: (xs ++ [30]))).countP
        (fun p => decide (p.1 ≤ s) && decide (s < p.2)) = 1 := by
  intro xs
  induction xs with
  | nil =>
    intro x _ hx hs
    simp [pairwiseL, hx, hs]
  | cons y ys ih =>
    intro x hp hx hs
    simp only [List.cons_append] at hp ⊢
    have hp' : List.Pairwise (· ≤ ·) (y :: (ys ++ [30])) :=
      (List.pairwise_cons.mp hp).2
    have hstep : pairwiseL (x :: y :: (ys ++ [30]))
        = (x, y) :: pairwiseL (y :: (ys ++ [30])) := rfl
    by_cases hy : y ≤ s
    · have hrec := ih y hp' hy hs
      rw [hstep, List.countP_cons, hrec]
      simp [Nat.not_lt.mpr hy]
    · have h1 : s < y := Nat.not_le.mp hy
      have hall : ∀ z ∈ y :: (ys ++ [30]), s < z := by
        intro z hz
        rcases List.mem_cons.mp hz with rfl | hz'
        · exact h1
        · exact lt_of_lt_of_le h1 ((List.pairwise_cons.mp hp').1 z hz')
      have hzero := pairwiseL_count_zero s (ys ++ [30]) y hall
      rw [hstep, List.countP_cons, hzero]
      simp [hx, h1]

lemma lastLE_eq_max (s : Nat) :
    ∀ (xs : List Nat) (x : Nat),
      List.Pairwise (· ≤ ·) (x :: xs) → x ≤ s →
      lastLE x xs s = max x ((xs.filter (fun t => t ≤ s)).foldr max 0) := by
  intro xs
  induction xs with
  | nil => intro x _ _; simp [lastLE]
  | cons y ys ih =>
    intro x hp hx
    have hxy : x ≤ y := (List.pairwise_cons.mp hp).1 y (by simp)
    have hp' : List.Pairwise (· ≤ ·) (y :: ys) := (List.pairwise_cons.mp hp).2
    by_cases hy : y ≤ s
    · have hrec := ih y hp' hy
      rw [show lastLE x (y :: ys) s = lastLE y ys s from by simp [lastLE, hy]]
      rw [hrec]
      have hfil : (y :: ys).filter (fun t => t ≤ s)
          = y :: ys.filter (fun t => t ≤ s) := by
        simp [List.filter_cons, hy]
      rw [hfil, List.foldr_cons]
      exact (Nat.max_eq_right (le_trans hxy (Nat.le_max_left _ _))).symm
    · have hfil : (y :: ys).filter (fun t => t ≤ s) = [] := by
        rw [List.filter_eq_nil_iff]
        intro z hz
        rcases List.mem_cons.mp hz with rfl | hz'
        · simp [hy]
        · have hyz : y ≤ z := (List.pairwise_cons.mp hp').1 z hz'
          simp only [decide_eq_true_eq]
          omega
      simp [lastLE, hy, hfil]

/-- Prepending the sentinel 0 and appending the sentinel 30 to a sorted
list of thresholds all `≤ 30` yields a sorted level list. -/
lemma seriesLevels_sorted {ts : List Nat} (h : ts.Sorted (· ≤ ·))
    (hb : ∀ t ∈ ts, t ≤ 30) :
    List.Pairwise (· ≤ ·) (seriesLevels ts) := by
  unfold seriesLevels
  rw [List.pairwise_cons]
  refine ⟨fun z _ => Nat.zero_le z, ?_⟩
  rw [List.pairwise_append]
  refine ⟨h, List.pairwise_singleton _ _, ?_⟩
  intro a ha b hb'
  simp only [List.mem_singleton] at hb'
  subst hb'
  exact hb a ha

end MHWilds

namespace MHWilds

/-! ## Claim C2: series-talent effective level -/

/-- Core of claim C2, shared with the series case of the cap argument:
the forced series semantics of a satisfying interval assignment. -/
lemma series_effective_level_core (ts : List Nat) (s : Nat)
    (asgs : List IntervalAsg) (hsorted : ts.Sorted (· ≤ ·))
    (hbound : ∀ t ∈ ts, t ≤ 30) (hs : s ≤ 29)
    (hc : seriesConstraint ts s asgs) :
    (asgs.map IntervalAsg.cand).sum = largestThresholdLE ts s ∧
    asgs.countP (fun a => a.betweenB) = 1 ∧
    asgs.countP (fun a => a.cand ≠ 0) ≤ 1 := by
  have hpw : List.Pairwise (· ≤ ·) (seriesLevels ts) :=
    seriesLevels_sorted hsorted hbound
  have hs30 : s < 30 := by omega
  have hpw0 : List.Pairwise (· ≤ ·) (0 :: ts) := by
    have hsub : (0 :: ts).Sublist (seriesLevels ts) :=
      List.sublist_append_left (0 :: ts) [30]
    exact List.Pairwise.sublist hsub hpw
  have hsum : (asgs.map IntervalAsg.cand).sum = largestThresholdLE ts s := by
    rw [seriesConstraint_cands hc]
    have h1 := pairwiseL_term_sum s ts 0 hpw (Nat.zero_le s) hs30
    rw [show seriesIntervals ts = pairwiseL (0 :: (ts ++ [30])) from rfl, h1]
    rw [lastLE_eq_max s ts 0 hpw0 (Nat.zero_le s)]
    unfold largestThresholdLE
    exact Nat.zero_max _
  have hcount : asgs.countP (fun a => a.betweenB) = 1 := by
    rw [seriesConstraint_betweens hc]
    exact pairwiseL_count_one s ts 0 hpw (Nat.zero_le s) hs30
  refine ⟨hsum, hcount, ?_⟩
  have hmap := seriesConstraint_cands hc
  have h1 : asgs.countP (fun a => a.cand ≠ 0)
      = (seriesIntervals ts).countP (fun p => intervalTerm s p ≠ 0) := by
    have h2 : (asgs.map IntervalAsg.cand).countP (fun n => n ≠ 0)
        = ((seriesIntervals ts).map (intervalTerm s)).countP (fun n => n ≠ 0) := by
      rw [hmap]
    rw [List.countP_map, List.countP_map] at h2
    exact h2
  rw [h1]
  calc (seriesIntervals ts).countP (fun p => intervalTerm s p ≠ 0)
      ≤ (seriesIntervals ts).countP (fun p => decide (p.1 ≤ s) && decide (s < p.2)) := by
        apply List.countP_mono_left
        intro p _ hp
        simp only [decide_eq_true_eq] at hp
        by_cases hsel : p.1 ≤ s ∧ s < p.2
        · simp [hsel.1, hsel.2]
        · exact absurd (by simp [intervalTerm, if_neg hsel]) hp
    _ = 1 := pairwiseL_count_one s ts 0 hpw (Nat.zero_le s) hs30

end MHWilds

namespace MHWilds

/-- Claim C2. For a series talent with sorted thresholds (all within the
0..30 variable range) and a capped contribution sum `s ≤ 29`, any
assignment satisfying the interval constraints of
`_set_series_talent_minimum_required_levels` has: the sum of the
per-interval candidate terms (the talent's final effective level per
`_aggregate_all_talents`) equal to the largest threshold not exceeding
`s` (0 when `s` is below the smallest threshold), exactly one interval's
"between" indicator true, and at most one non-zero candidate term. -/
theorem series_talent_effective_level (ts : List Nat) (s : Nat)
    (asgs : List IntervalAsg) (hsorted : ts.Sorted (· ≤ ·))
    (hbound : ∀ t ∈ ts, t ≤ 30) (hs : s ≤ 29)
    (hc : seriesConstraint ts s asgs) :
    (asgs.map IntervalAsg.cand).sum = largestThresholdLE ts s ∧
    asgs.countP (fun a => a.betweenB) = 1 ∧
    asgs.countP (fun a => a.cand ≠ 0) ≤ 1 :=
  series_effective_level_core ts s asgs hsorted hbound hs hc

/-- Witness for C2 at thresholds `[2, 4]` and capped sum 3: the final
effective level is 2, the largest threshold not exceeding 3. -/
theorem series_talent_effective_level_witness :
    ([2, 4] : List Nat).Sorted (· ≤ ·) ∧
    (([⟨true, false, false, 0⟩, ⟨true, true, true, 2⟩,
       ⟨false, true, false, 0⟩] : List IntervalAsg).map
        IntervalAsg.cand).sum = largestThresholdLE [2, 4] 3 := by
  refine ⟨by decide, ?_⟩
  exact (series_talent_effective_level [2, 4] 3
    [⟨true, false, false, 0⟩, ⟨true, true, true, 2⟩, ⟨false, true, false, 0⟩]
    (by decide) (by decide) (by decide)
    (by refine .cons ?_ (.cons ?_ (.cons ?_ .nil)) <;> decide)).1

/-! ## Claim C4: group-talent threshold semantics -/

/-- Claim C4. For a Group talent, any satisfying assignment has the
"threshold met" boolean true exactly when the capped sum reaches the
required level, and the final effective level equal to the capped sum
when it does and 0 otherwise. -/
theorem group_talent_threshold_semantics (req : Nat) (a : TalentAsg)
    (h : kindConstraints (.group req) a) :
    (a.groupB = true ↔ req ≤ a.cappedVar) ∧
    a.finalVar = (if req ≤ a.cappedVar then a.cappedVar else 0) := by
  have h' : groupReify req a.cappedVar a.groupB ∧
      groupAggregate a.groupB a.cappedVar a.finalVar := h
  obtain ⟨⟨h1, h2⟩, h3, h4⟩ := h'
  cases hb : a.groupB
  · have hlt := h2 hb
    refine ⟨⟨fun hcontra => absurd hcontra Bool.false_ne_true,
             fun hge => absurd hge (Nat.not_le.mpr hlt)⟩, ?_⟩
    rw [if_neg (Nat.not_le.mpr hlt), h4 hb]
  · have hge := h1 hb
    exact ⟨⟨fun _ => hge, fun _ => rfl⟩, by rw [if_pos hge, h3 hb]⟩

/-- Witness for C4: required level 3, capped sum 4, indicator true,
final level 4. -/
theorem group_talent_threshold_semantics_witness :
    ((true = true) ↔ 3 ≤ 4) ∧ (4 : Nat) = (if 3 ≤ 4 then 4 else 0) :=
  group_talent_threshold_semantics 3 ⟨[], 0, 4, true, [], 4⟩
    (show groupReify 3 4 true ∧ groupAggregate true 4 4 by decide)

end MHWilds

namespace MHWilds

/-! ## Claim C5: the declared-maximum cap -/

lemma pairwiseL_snd_mem : ∀ (l : List Nat) (p : Nat × Nat),
    p ∈ pairwiseL l → p.2 ∈ l := by
  intro l
  induction l with
  | nil => intro p hp; simp [pairwiseL] at hp
  | cons a l ih =>
    cases l with
    | nil => intro p hp; simp [pairwiseL] at hp
    | cons b l' =>
      intro p hp
      rw [show pairwiseL (a :: b :: l') = (a, b) :: pairwiseL (b :: l')
          from rfl] at hp
      rcases List.mem_cons.mp hp with rfl | hp'
      · simp
      · exact List.mem_cons_of_mem a (ih p hp')

lemma foldr_max_le {l : List Nat} {m : Nat} (h : ∀ x ∈ l, x ≤ m) :
    l.foldr max 0 ≤ m := by
  induction l with
  | nil => exact Nat.zero_le m
  | cons a l ih =>
    rw [List.foldr_cons]
    exact max_le (h a (by simp))
      (ih (fun x hx => h x (List.mem_cons_of_mem a hx)))

lemma largestThresholdLE_le {ts : List Nat} {s m : Nat}
    (h : ∀ t ∈ ts, t ≤ m) : largestThresholdLE ts s ≤ m := by
  unfold largestThresholdLE
  exact foldr_max_le (fun x hx => h x (List.mem_of_mem_filter hx))

/-- When the capped sum sits at the sentinel 30, no interval's `< hi`
test can hold (every upper bound is at most 30), so every candidate term
is 0. -/
lemma series_cands_at_30 {ts : List Nat} {asgs : List IntervalAsg}
    (hb : ∀ t ∈ ts, t ≤ 30) (hc : seriesConstraint ts 30 asgs) :
    (asgs.map IntervalAsg.cand).sum = 0 := by
  rw [seriesConstraint_cands hc]
  apply List.sum_eq_zero
  intro x hx
  rcases List.mem_map.mp hx with ⟨p, hp, rfl⟩
  have h2 : p.2 ∈ seriesLevels ts := pairwiseL_snd_mem _ p hp
  have h30 : p.2 ≤ 30 := by
    rcases List.mem_cons.mp h2 with h0 | h2'
    · omega
    · rcases List.mem_append.mp h2' with h | h
      · exact hb _ h
      · simp only [List.mem_singleton] at h; omega
  unfold intervalTerm
  rw [if_neg (by omega : ¬(p.1 ≤ 30 ∧ 30 < p.2))]

/-- Claim C5. For every talent of the catalog and every assignment admitted
by the model, the capped variable equals the minimum of the raw
contribution sum and the declared maximum level, and the final effective
level never exceeds the declared maximum. -/
theorem talent_final_level_capped (decls : List TalentDecl) (σ : BuildAsg)
    (d : TalentDecl) (hmem : d ∈ decls) (hwf : TalentWellFormed d)
    (hsat : ModelSat decls σ) :
    (σ.talent d.name).cappedVar
        = min (σ.talent d.name).contribs.sum d.maxLvl ∧
    (σ.talent d.name).finalVar ≤ d.maxLvl := by
  obtain ⟨⟨hsum1, hsum2⟩, hcap, hkind, -⟩ := hsat.1 d hmem
  refine ⟨by rw [hcap, hsum1], ?_⟩
  have hcap' : (σ.talent d.name).cappedVar ≤ d.maxLvl := by
    rw [hcap]; exact Nat.min_le_right _ _
  rcases hk : d.kind with _ | req | ts
  · rw [hk] at hkind
    have hfe : (σ.talent d.name).finalVar = (σ.talent d.name).cappedVar := hkind
    omega
  · rw [hk] at hkind
    have hkind' : groupReify req (σ.talent d.name).cappedVar
          (σ.talent d.name).groupB ∧
        groupAggregate (σ.talent d.name).groupB
          (σ.talent d.name).cappedVar (σ.talent d.name).finalVar := hkind
    obtain ⟨-, h3, h4⟩ := hkind'
    cases hb : (σ.talent d.name).groupB
    · rw [h4 hb]; exact Nat.zero_le _
    · rw [h3 hb]; exact hcap'
  · rw [hk] at hkind
    have hkind' : seriesConstraint ts (σ.talent d.name).cappedVar
          (σ.talent d.name).intervals ∧
        (σ.talent d.name).finalVar
          = ((σ.talent d.name).intervals.map IntervalAsg.cand).sum := hkind
    obtain ⟨hser, hfin⟩ := hkind'
    have hwf' : ts.Sorted (· ≤ ·) ∧ (∀ t ∈ ts, t ≤ d.maxLvl) ∧
        d.maxLvl ≤ 30 := by
      unfold TalentWellFormed at hwf
      rw [hk] at hwf
      exact hwf
    have hb30 : ∀ t ∈ ts, t ≤ 30 :=
      fun t ht => le_trans (hwf'.2.1 t ht) hwf'.2.2
    by_cases hs : (σ.talent d.name).cappedVar ≤ 29
    · have h := series_effective_level_core ts (σ.talent d.name).cappedVar
        (σ.talent d.name).intervals hwf'.1 hb30 hs hser
      rw [hfin, h.1]
      exact largestThresholdLE_le hwf'.2.1
    · have hmax := hwf'.2.2
      have hs30 : (σ.talent d.name).cappedVar = 30 := by omega
      rw [hs30] at hser
      rw [hfin, series_cands_at_30 hb30 hser]
      exact Nat.zero_le _

/-- Witness for C5: a Weapon/Equip talent with declared maximum 3 and
raw contributions summing to 4; the capped and final levels are 3. -/
theorem talent_final_level_capped_witness :
    (3 : Nat) = min ([2, 2] : List Nat).sum 3 ∧ (3 : Nat) ≤ 3 := by
  have hsat : ModelSat [⟨"AttackBoost", .weaponEquip, 3⟩]
      ⟨fun _ => ⟨[2, 2], 4, 3, false, [], 3⟩,
       ⟨0, 0, 0, 0, 0, 0⟩, ⟨0, 0, 0, 0, 0, 0⟩⟩ := by
    refine ⟨?_, by decide, by decide⟩
    intro d hd
    rw [List.mem_singleton] at hd
    subst hd
    exact ⟨by decide, by decide, rfl, by decide⟩
  exact talent_final_level_capped _ _ ⟨"AttackBoost", .weaponEquip, 3⟩
    (by simp) trivial hsat

/-! ## Claim C10: raw sums above 30 are infeasible -/

/-- Claim C10. The raw contribution-sum variable has upper bound 30, so an
assignment in which some talent's raw contributions total more than 30
violates `_compute_talent_sums` and is excluded from the search space
entirely (rather than admitted and capped). -/
theorem raw_sum_over_30_infeasible (decls : List TalentDecl)
    (σ : BuildAsg) (d : TalentDecl) (hmem : d ∈ decls)
    (hover : 30 < (σ.talent d.name).contribs.sum) :
    ¬ ModelSat decls σ := by
  intro hsat
  obtain ⟨⟨h1, h2⟩, -, -, -⟩ := hsat.1 d hmem
  omega

/-- Witness for C10: contributions `[20, 15]` (raw sum 35) to a talent
admit no satisfying assignment. -/
theorem raw_sum_over_30_infeasible_witness :
    (30 : Nat) < ([20, 15] : List Nat).sum ∧
    ¬ ModelSat [⟨"AttackBoost", .weaponEquip, 3⟩]
      ⟨fun _ => ⟨[20, 15], 0, 0, false, [], 0⟩,
       ⟨0, 0, 0, 0, 0, 0⟩, ⟨0, 0, 0, 0, 0, 0⟩⟩ :=
  ⟨by decide,
   raw_sum_over_30_infeasible _ _ ⟨"AttackBoost", .weaponEquip, 3⟩
     (by simp) (by decide)⟩

/-! ## Claim C3: jewel-slot capacity -/

/-- Claim C3. In every solution admitted by the model, each host pool
independently satisfies the three slot-capacity inequalities of
`_add_jewel_usage_constraints` (armor pool for Equip-group jewels,
weapon pool for Weapon-group jewels); consequently the total number of
jewels placed in a pool never exceeds its total slot count. -/
theorem jewel_slot_capacity_respected (decls : List TalentDecl)
    (σ : BuildAsg) (hsat : ModelSat decls σ) :
    ((σ.armorPool.u3 : Int) ≤ (σ.armorPool.e3 : Int) ∧
     (σ.armorPool.u2 : Int) ≤ (σ.armorPool.e2 : Int) + (σ.armorPool.e3 : Int)
         - (σ.armorPool.u3 : Int) ∧
     (σ.armorPool.u1 : Int) ≤ (σ.armorPool.e1 : Int) + (σ.armorPool.e2 : Int)
         + (σ.armorPool.e3 : Int) - (σ.armorPool.u3 : Int)
         - (σ.armorPool.u2 : Int)) ∧
    ((σ.weaponPool.u3 : Int) ≤ (σ.weaponPool.e3 : Int) ∧
     (σ.weaponPool.u2 : Int) ≤ (σ.weaponPool.e2 : Int) + (σ.weaponPool.e3 : Int)
         - (σ.weaponPool.u3 : Int) ∧
     (σ.weaponPool.u1 : Int) ≤ (σ.weaponPool.e1 : Int) + (σ.weaponPool.e2 : Int)
         + (σ.weaponPool.e3 : Int) - (σ.weaponPool.u3 : Int)
         - (σ.weaponPool.u2 : Int)) ∧
    σ.armorPool.u1 + σ.armorPool.u2 + σ.armorPool.u3
        ≤ σ.armorPool.e1 + σ.armorPool.e2 + σ.armorPool.e3 ∧
    σ.weaponPool.u1 + σ.weaponPool.u2 + σ.weaponPool.u3
        ≤ σ.weaponPool.e1 + σ.weaponPool.e2 + σ.weaponPool.e3 := by
  obtain ⟨-, ha, hw⟩ := hsat
  obtain ⟨ha1, ha2, ha3⟩ := ha
  obtain ⟨hw1, hw2, hw3⟩ := hw
  refine ⟨⟨ha1, ha2, ha3⟩, ⟨hw1, hw2, hw3⟩, ?_, ?_⟩ <;> omega

/-- Witness for C3: an armor pool with one slot of each size hosting a
single size-3 jewel. -/
theorem jewel_slot_capacity_respected_witness :
    ModelSat [] ⟨fun _ => ⟨[], 0, 0, false, [], 0⟩,
      ⟨1, 1, 1, 0, 0, 1⟩, ⟨0, 0, 0, 0, 0, 0⟩⟩ ∧
    (0 : Nat) + 0 + 1 ≤ 1 + 1 + 1 := by
  have hsat : ModelSat [] ⟨fun _ => ⟨[], 0, 0, false, [], 0⟩,
      ⟨1, 1, 1, 0, 0, 1⟩, ⟨0, 0, 0, 0, 0, 0⟩⟩ := by
    refine ⟨?_, by decide, by decide⟩
    intro d hd
    exact absurd hd (List.not_mem_nil d)
  exact ⟨hsat, (jewel_slot_capacity_respected _ _ hsat).2.2.1⟩

end MHWilds

namespace MHWilds

/-! ## The objective composer (`_create_objective_function`)

The objective is a linear expression over model variables; its value on
an assignment is an integer.  The inputs below are the values, on one
assignment, of the model quantities the source reads:
`talent_sums_final.items()`, the per-gear armor emplacement sums, the
weapon emplacement sums, and the per-size jewel-use variables.  Wish
lists are assumed to carry distinct talent names (the source collapses
them into dicts, where a duplicate name would keep only the last entry). -/

/-- One entry of the request's `talent_list`: name, `weight`, and
`target_level` (−1 means "no explicit target"). -/
structure WishItem where
  name : String
  weight : Nat
  target : Int
deriving Repr, DecidableEq

/-- Lookup in the dicts `wanted_talents` / `wanted_talents_objective`
built from the wish list by dict comprehension (a later duplicate wins,
hence the search over the reversed list). -/
def findWish (wish : List WishItem) (t : String) : Option WishItem :=
  wish.reverse.find? (fun w => w.name == t)

/-- From `_vars.talent_sums_final[talent]`: a plain dict lookup that raises
`KeyError` when the talent has no entry. -/
def lookupFinal (finals : List (String × Nat)) (t : String) :
    Except String Nat :=
  match finals.find? (fun p => p.1 == t) with
  | some p => Except.ok p.2
  | none => Except.error ("KeyError: " ++ t)

/-- From `talent_objective = sum(talent_sums_final[talent] * 10**weight for
talent, weight in wanted_talents.items())` — the iteration raises
`KeyError` on the first wished talent absent from the finals dict. -/
def talentObjectiveE (finals : List (String × Nat)) :
    List WishItem → Except String Int
  | [] => Except.ok 0
  | w :: rest => do
    let f ← lookupFinal finals w.name
    let r ← talentObjectiveE finals rest
    pure ((f : Int) * 10 ^ w.weight + r)

/-- From `abs_diff_vars`: for every entry of `talent_sums_final` that is in
`wanted_talents_objective` with a target ≠ −1, the term
`|final − target| * 10**weight` (`AddAbsEquality`). -/
def absDiffTerms (finals : List (String × Nat)) (wish : List WishItem) :
    List Int :=
  finals.filterMap (fun p =>
    match findWish wish p.1 with
    | some w =>
        if w.target = -1 then none
        else some (|(p.2 : Int) - w.target| * 10 ^ w.weight)
    | none => none)

/-- The four per-size emplacement sums of one armor gear type
(`jewel_emplacement_sums[gear_type]`). -/
structure GearEmp where
  l1 : Nat
  l2 : Nat
  l3 : Nat
  l4 : Nat
deriving Repr, DecidableEq

/-- The weapon's three emplacement sums
(`jewel_emplacement_sums_total_weapon`). -/
structure WeaponEmp where
  l1 : Nat
  l2 : Nat
  l3 : Nat
deriving Repr, DecidableEq

/-- From `maximize_nb_of_free_jewels`: for each size 1..3, the sum of the
per-armor-gear-type emplacement sums of that size (the iteration is over
`_vars.jewel_emplacement_sums`, which holds only armor gear types) minus
the summed uses of ALL jewels of that size, times `10**size`. -/
def freeJewelTerms (armorEmp : List GearEmp)
    (uses1 uses2 uses3 : List Nat) : List Int :=
  [((armorEmp.map (fun g => (g.l1 : Int))).sum
      - (uses1.map (fun n => (n : Int))).sum) * 10 ^ 1,
   ((armorEmp.map (fun g => (g.l2 : Int))).sum
      - (uses2.map (fun n => (n : Int))).sum) * 10 ^ 2,
   ((armorEmp.map (fun g => (g.l3 : Int))).sum
      - (uses3.map (fun n => (n : Int))).sum) * 10 ^ 3]

/-- From `nb_of_talents = sum(talent_sums_final.values())`. -/
def nbOfTalents (finals : List (String × Nat)) : Int :=
  (finals.map (fun p => (p.2 : Int))).sum

/-- The model quantities `_create_objective_function` reads. -/
structure ObjInput where
  finals : List (String × Nat)
  wish : List WishItem
  armorEmp : List GearEmp
  weaponEmp : WeaponEmp
  uses1 : List Nat
  uses2 : List Nat
  uses3 : List Nat

/-- The value of the single maximize-objective:
`talent_objective * 10**9 - sum(abs_diff_vars) * 10**9 +
sum(maximize_nb_of_free_jewels) * 10**3 + nb_of_talents`
(note `weaponEmp` is never read, and both 10^9 factors are equal). -/
def createObjectiveFunction (inp : ObjInput) : Except String Int := do
  let talentObj ← talentObjectiveE inp.finals inp.wish
  pure (talentObj * 10 ^ 9
    - (absDiffTerms inp.finals inp.wish).sum * 10 ^ 9
    + (freeJewelTerms inp.armorEmp inp.uses1 inp.uses2 inp.uses3).sum * 10 ^ 3
    + nbOfTalents inp.finals)

/-- Modelled from the spec's words (§4.4 item 3, claim C9): the
free-slot term as the claim states it — for each size class the unused
capacity of BOTH pools, armor and weapon, with the size-increasing
weight `10^size`. -/
def freeSlotTermSpec (inp : ObjInput) : Int :=
  ((inp.armorEmp.map (fun g => (g.l1 : Int))).sum + (inp.weaponEmp.l1 : Int)
      - (inp.uses1.map (fun n => (n : Int))).sum) * 10 ^ 1 +
  ((inp.armorEmp.map (fun g => (g.l2 : Int))).sum + (inp.weaponEmp.l2 : Int)
      - (inp.uses2.map (fun n => (n : Int))).sum) * 10 ^ 2 +
  ((inp.armorEmp.map (fun g => (g.l3 : Int))).sum + (inp.weaponEmp.l3 : Int)
      - (inp.uses3.map (fun n => (n : Int))).sum) * 10 ^ 3

/-! ## Claim C9: the free-slot term -/

/-- Claim C9, counterexample. With no armor emplacements, no jewel uses,
and one free size-1 weapon slot, the code's free-slot term is 0 while
the spec's both-pools term is 10: the weapon pool is not counted. -/
theorem free_slot_term_counterexample :
    (freeJewelTerms ([] : List GearEmp) [] [] []).sum = 0 ∧
    freeSlotTermSpec ⟨[], [], [], ⟨1, 0, 0⟩, [], [], []⟩ = 10 ∧
    (0 : Int) ≠ 10 := by
  refine ⟨by decide, by decide, by decide⟩

/-- Claim C9, amended. The free-slot term of the objective counts only the
armor pool's per-gear emplacement sums (sizes 1..3) minus the uses of
all jewels of each size; it differs from the spec's both-pools term by
exactly the weighted weapon-pool capacity. -/
theorem free_slot_term_armor_only (inp : ObjInput) :
    (freeJewelTerms inp.armorEmp inp.uses1 inp.uses2 inp.uses3).sum
      = freeSlotTermSpec inp
        - (10 * (inp.weaponEmp.l1 : Int) + 100 * (inp.weaponEmp.l2 : Int)
           + 1000 * (inp.weaponEmp.l3 : Int)) := by
  unfold freeJewelTerms freeSlotTermSpec
  simp only [List.sum_cons, List.sum_nil]
  ring

end MHWilds

namespace MHWilds

instance {ε α : Type _} [DecidableEq ε] [DecidableEq α] :
    DecidableEq (Except ε α) := fun x y =>
  match x, y with
  | .ok a, .ok b =>
      if h : a = b then isTrue (by rw [h])
      else isFalse (by intro hc; injection hc with h2; exact h h2)
  | .error e, .error f =>
      if h : e = f then isTrue (by rw [h])
      else isFalse (by intro hc; injection hc with h2; exact h h2)
  | .ok _, .error _ => isFalse (by intro hc; cases hc)
  | .error _, .ok _ => isFalse (by intro hc; cases hc)

/-! ## Claim C8: unknown wish-list talents -/

/-- Claim C8, counterexample.  The unknown-talent failure is a `KeyError`
raised while composing the objective — a phase that consumes the fully
built finals dict — not a pre-construction wish-list validation: on the
same wish list naming `"Unknown"`, the outcome depends on the contents
of the constructed model (error when the finals dict lacks the name, a
successfully composed objective when it happens to contain it). -/
theorem wishlist_validation_counterexample :
    createObjectiveFunction
        ⟨[("AttackBoost", 3)], [⟨"Unknown", 1, -1⟩], [], ⟨0, 0, 0⟩, [], [], []⟩
      = Except.error ("KeyError: " ++ "Unknown") ∧
    createObjectiveFunction
        ⟨[("AttackBoost", 3), ("Unknown", 2)], [⟨"Unknown", 1, -1⟩],
         [], ⟨0, 0, 0⟩, [], [], []⟩
      = Except.ok 20000000005 := by
  refine ⟨by decide, by decide⟩

/-- The iteration of `talent_objective` over the wished talents fails
with a `KeyError` as soon as it reaches a wished talent with no entry in
the finals dict: whenever the wish list contains such an entry, the
whole sum evaluates to `KeyError: <t>` for some wished talent `t` absent
from the finals dict (the first one in iteration order). -/
lemma talentObjectiveE_error_of_missing (finals : List (String × Nat)) :
    ∀ (wish : List WishItem),
      (∃ w ∈ wish, finals.find? (fun p => p.1 == w.name) = none) →
      ∃ t, (∃ w ∈ wish, w.name = t ∧
              finals.find? (fun p => p.1 == t) = none) ∧
        talentObjectiveE finals wish
          = Except.error ("KeyError: " ++ t) := by
  intro wish
  induction wish with
  | nil =>
    rintro ⟨w, hw, -⟩
    exact absurd hw (List.not_mem_nil w)
  | cons w rest ih =>
    rintro ⟨w', hw', hmiss'⟩
    cases hfind : finals.find? (fun p => p.1 == w.name) with
    | none =>
      refine ⟨w.name, ⟨w, List.mem_cons_self w rest, rfl, hfind⟩, ?_⟩
      unfold talentObjectiveE lookupFinal
      rw [hfind]
      rfl
    | some pr =>
      rcases List.mem_cons.mp hw' with rfl | hrest
      · rw [hfind] at hmiss'
        cases hmiss'
      · obtain ⟨t, ⟨w'', hw'', hname, hmiss⟩, herr⟩ := ih ⟨w', hrest, hmiss'⟩
        refine ⟨t, ⟨w'', List.mem_cons_of_mem w hw'', hname, hmiss⟩, ?_⟩
        unfold talentObjectiveE lookupFinal
        rw [hfind, herr]
        rfl

/-- Claim C8, amended. Every wish list containing an entry that names a
talent with no entry in the built finals dict (in particular any talent
name absent from the catalog) makes `_create_objective_function` raise
`KeyError: <t>` for some such wished talent `t` (the first in iteration
order); the request fails loudly (never silently ignored), but only
during objective composition, after all constraint-building phases, and
with a bare `KeyError` rather than a descriptive pre-construction
rejection. -/
theorem unknown_talent_raises_keyerror (inp : ObjInput) (w : WishItem)
    (hmem : w ∈ inp.wish)
    (hmiss : inp.finals.find? (fun p => p.1 == w.name) = none) :
    ∃ t, (∃ witem ∈ inp.wish, witem.name = t ∧
            inp.finals.find? (fun p => p.1 == t) = none) ∧
      createObjectiveFunction inp = Except.error ("KeyError: " ++ t) := by
  obtain ⟨t, hwit, herr⟩ :=
    talentObjectiveE_error_of_missing inp.finals inp.wish ⟨w, hmem, hmiss⟩
  refine ⟨t, hwit, ?_⟩
  unfold createObjectiveFunction
  rw [herr]
  rfl

/-- Witness for the amended C8 at a two-entry wish list whose second
entry is unknown: the objective composition raises `KeyError: Unknown`
even though the first entry resolves. -/
theorem unknown_talent_raises_keyerror_witness :
    (([("AttackBoost", 3)] : List (String × Nat)).find?
        (fun p => p.1 == "Unknown") = none) ∧
    ∃ t, (∃ witem ∈ ([⟨"AttackBoost", 2, -1⟩, ⟨"Unknown", 1, -1⟩] :
            List WishItem), witem.name = t ∧
            ([("AttackBoost", 3)] : List (String × Nat)).find?
              (fun p => p.1 == t) = none) ∧
      createObjectiveFunction
          ⟨[("AttackBoost", 3)], [⟨"AttackBoost", 2, -1⟩, ⟨"Unknown", 1, -1⟩],
           [], ⟨0, 0, 0⟩, [], [], []⟩
        = Except.error ("KeyError: " ++ t) :=
  ⟨by decide,
   unknown_talent_raises_keyerror
     ⟨[("AttackBoost", 3)], [⟨"AttackBoost", 2, -1⟩, ⟨"Unknown", 1, -1⟩],
      [], ⟨0, 0, 0⟩, [], [], []⟩
     ⟨"Unknown", 1, -1⟩ (by decide) (by decide)⟩

/-! ## Claim C1: objective tier ordering -/

/-- Inversion of a successful objective composition. -/
lemma createObjectiveFunction_ok {inp : ObjInput} {a v : Int}
    (ha : talentObjectiveE inp.finals inp.wish = Except.ok a)
    (hv : createObjectiveFunction inp = Except.ok v) :
    v = a * 10 ^ 9 - (absDiffTerms inp.finals inp.wish).sum * 10 ^ 9
      + (freeJewelTerms inp.armorEmp inp.uses1 inp.uses2 inp.uses3).sum * 10 ^ 3
      + nbOfTalents inp.finals := by
  unfold createObjectiveFunction at hv
  rw [ha] at hv
  exact (Except.ok.inj hv).symm

/-- Claim C1, counterexample.  Both the penalty and the achievement term
are scaled by the same factor 10^9, so a strictly smaller total penalty
does not win: wishing talent "A" at weight 0 with target 1, the
assignment with final level 1 (penalty 0) scores 10^9 + 1, while the
assignment with final level 5 (penalty 4) scores 10^9 + 5 and wins. -/
theorem objective_penalty_priority_counterexample :
    (absDiffTerms [("A", 1)] [⟨"A", 0, 1⟩]).sum
        < (absDiffTerms [("A", 5)] [⟨"A", 0, 1⟩]).sum ∧
    createObjectiveFunction ⟨[("A", 1)], [⟨"A", 0, 1⟩], [], ⟨0, 0, 0⟩, [], [], []⟩
        = Except.ok 1000000001 ∧
    createObjectiveFunction ⟨[("A", 5)], [⟨"A", 0, 1⟩], [], ⟨0, 0, 0⟩, [], [], []⟩
        = Except.ok 1000000005 ∧
    (1000000001 : Int) < 1000000005 := by
  refine ⟨by decide, by decide, by decide, by decide⟩

/-- Claim C1, amended.  The penalty and weighted-achievement terms share
the multiplier 10^9, so only their combined net value is prioritized:
whenever one assignment's net value (achievement − penalty) strictly
exceeds another's, and the lower-priority terms are within the bounds
the model imposes (free-slot term and talent-count term non-negative and
at most 10^5), the first assignment's objective is strictly larger,
regardless of the lower-priority terms. -/
theorem objective_net_tier_dominates (inpX inpY : ObjInput)
    (aX aY vX vY : Int)
    (haX : talentObjectiveE inpX.finals inpX.wish = Except.ok aX)
    (haY : talentObjectiveE inpY.finals inpY.wish = Except.ok aY)
    (hnet : aY - (absDiffTerms inpY.finals inpY.wish).sum
        < aX - (absDiffTerms inpX.finals inpX.wish).sum)
    (hfX : 0 ≤ (freeJewelTerms inpX.armorEmp inpX.uses1 inpX.uses2 inpX.uses3).sum)
    (hfY : (freeJewelTerms inpY.armorEmp inpY.uses1 inpY.uses2 inpY.uses3).sum
        ≤ 100000)
    (hnX : 0 ≤ nbOfTalents inpX.finals)
    (hnY : nbOfTalents inpY.finals ≤ 100000)
    (hvX : createObjectiveFunction inpX = Except.ok vX)
    (hvY : createObjectiveFunction inpY = Except.ok vY) :
    vY < vX := by
  rw [createObjectiveFunction_ok haX hvX, createObjectiveFunction_ok haY hvY]
  simp only [show (10 : Int) ^ 9 = 1000000000 from by norm_num,
    show (10 : Int) ^ 3 = 1000 from by norm_num]
  omega

/-- Witness for the amended C1: net value 1 beats net value 0. -/
theorem objective_net_tier_dominates_witness :
    talentObjectiveE [("A", 1)] [⟨"A", 0, -1⟩] = Except.ok 1 ∧
    (0 : Int) < 1000000001 := by
  refine ⟨by decide, ?_⟩
  exact objective_net_tier_dominates
    ⟨[("A", 1)], [⟨"A", 0, -1⟩], [], ⟨0, 0, 0⟩, [], [], []⟩
    ⟨[("A", 0)], [⟨"A", 0, -1⟩], [], ⟨0, 0, 0⟩, [], [], []⟩
    1 0 1000000001 0
    (by decide) (by decide) (by decide) (by decide) (by decide)
    (by decide) (by decide) (by decide) (by decide)

end MHWilds

namespace MHWilds

/-! ## Claim C6: stopping at the target level beats overshooting -/

lemma findWish_single_eq (t : String) (w : Nat) (tg : Int) :
    findWish [⟨t, w, tg⟩] t = some ⟨t, w, tg⟩ := by
  simp [findWish, List.find?]

lemma findWish_single_ne (t s : String) (w : Nat) (tg : Int) (h : s ≠ t) :
    findWish [⟨t, w, tg⟩] s = none := by
  have hb : (t == s) = false := beq_eq_false_iff_ne.mpr (Ne.symm h)
  simp [findWish, List.find?, hb]

lemma absDiffTerms_rest_nil (t : String) (w : Nat) (tg : Int)
    (rest : List (String × Nat)) (hrest : ∀ p ∈ rest, p.1 ≠ t) :
    absDiffTerms rest [⟨t, w, tg⟩] = [] := by
  induction rest with
  | nil => rfl
  | cons p ps ih =>
    have h1 : findWish [⟨t, w, tg⟩] p.1 = none :=
      findWish_single_ne t p.1 w tg (hrest p (by simp))
    have h2 := ih (fun q hq => hrest q (List.mem_cons_of_mem p hq))
    unfold absDiffTerms at h2 ⊢
    rw [List.filterMap_cons, h1, h2]

lemma absDiffTerms_head (t : String) (w : Nat) (tg : Int) (f : Nat)
    (rest : List (String × Nat)) (hrest : ∀ p ∈ rest, p.1 ≠ t)
    (htg : tg ≠ -1) :
    absDiffTerms ((t, f) :: rest) [⟨t, w, tg⟩]
      = [|(f : Int) - tg| * 10 ^ w] := by
  have h2 := absDiffTerms_rest_nil t w tg rest hrest
  unfold absDiffTerms at h2 ⊢
  rw [List.filterMap_cons, h2]
  simp [findWish_single_eq, htg]

lemma lookupFinal_head (t : String) (f : Nat) (rest : List (String × Nat)) :
    lookupFinal ((t, f) :: rest) t = Except.ok f := by
  simp [lookupFinal, List.find?]

lemma talentObjectiveE_single (finals : List (String × Nat)) (t : String)
    (w : Nat) (tg : Int) (f : Nat)
    (hf : lookupFinal finals t = Except.ok f) :
    talentObjectiveE finals [⟨t, w, tg⟩]
      = Except.ok ((f : Int) * 10 ^ w) := by
  unfold talentObjectiveE
  rw [hf]
  show Except.ok ((f : Int) * 10 ^ w + 0) = _
  rw [add_zero]

lemma nbOfTalents_cons (t : String) (n : Nat) (rest : List (String × Nat)) :
    nbOfTalents ((t, n) :: rest) = (n : Int) + nbOfTalents rest := by
  simp [nbOfTalents]

/-- Claim C6. With a single wish entry for talent `t`, weight `w` and
explicit target level 2, an assignment whose final level for `t` is
exactly 2 scores strictly higher than one whose final level is 4, all
other final levels equal, whenever reaching level 4 consumes at least
one additional jewel slot (the smallest slot contributes 10 to the
free-slot list, so the free-slot sums differ by at least 10). -/
theorem target_level_preferred_over_overshoot (t : String) (w : Nat)
    (rest : List (String × Nat)) (hrest : ∀ p ∈ rest, p.1 ≠ t)
    (inpX inpY : ObjInput) (vX vY : Int)
    (hfX : inpX.finals = (t, 2) :: rest) (hfY : inpY.finals = (t, 4) :: rest)
    (hwX : inpX.wish = [⟨t, w, 2⟩]) (hwY : inpY.wish = [⟨t, w, 2⟩])
    (hfree : (freeJewelTerms inpY.armorEmp inpY.uses1 inpY.uses2 inpY.uses3).sum + 10
        ≤ (freeJewelTerms inpX.armorEmp inpX.uses1 inpX.uses2 inpX.uses3).sum)
    (hvX : createObjectiveFunction inpX = Except.ok vX)
    (hvY : createObjectiveFunction inpY = Except.ok vY) :
    vY < vX := by
  have haX : talentObjectiveE inpX.finals inpX.wish
      = Except.ok ((2 : Int) * 10 ^ w) := by
    rw [hfX, hwX]
    exact talentObjectiveE_single _ t w 2 2 (lookupFinal_head t 2 rest)
  have haY : talentObjectiveE inpY.finals inpY.wish
      = Except.ok ((4 : Int) * 10 ^ w) := by
    rw [hfY, hwY]
    exact talentObjectiveE_single _ t w 2 4 (lookupFinal_head t 4 rest)
  have hpX : (absDiffTerms inpX.finals inpX.wish).sum = 0 := by
    rw [hfX, hwX, absDiffTerms_head t w 2 2 rest hrest (by decide)]
    simp
  have hpY : (absDiffTerms inpY.finals inpY.wish).sum = 2 * 10 ^ w := by
    rw [hfY, hwY, absDiffTerms_head t w 2 4 rest hrest (by decide)]
    show |(4 : Int) - 2| * 10 ^ w + 0 = 2 * 10 ^ w
    norm_num
  have hnX : nbOfTalents inpX.finals = 2 + nbOfTalents rest := by
    rw [hfX]; exact nbOfTalents_cons t 2 rest
  have hnY : nbOfTalents inpY.finals = 4 + nbOfTalents rest := by
    rw [hfY]; exact nbOfTalents_cons t 4 rest
  rw [createObjectiveFunction_ok haX hvX, createObjectiveFunction_ok haY hvY,
    hpX, hpY, hnX, hnY]
  have hkey : (4 : Int) * 10 ^ w * 10 ^ 9 - 2 * 10 ^ w * 10 ^ 9
      = 2 * 10 ^ w * 10 ^ 9 - 0 * 10 ^ 9 := by ring
  have hfree' := hfree
  nlinarith [hfree']

/-- Witness for C6: weight 1, an armor pool with one free size-1 slot
in assignment X that assignment Y fills with a jewel. -/
theorem target_level_preferred_over_overshoot_witness :
    createObjectiveFunction
        ⟨[("A", 2)], [⟨"A", 1, 2⟩], [⟨1, 0, 0, 0⟩], ⟨0, 0, 0⟩, [], [], []⟩
      = Except.ok 20000010002 ∧
    (20000000004 : Int) < 20000010002 := by
  refine ⟨by decide, ?_⟩
  exact target_level_preferred_over_overshoot "A" 1 [] (by simp)
    ⟨[("A", 2)], [⟨"A", 1, 2⟩], [⟨1, 0, 0, 0⟩], ⟨0, 0, 0⟩, [], [], []⟩
    ⟨[("A", 4)], [⟨"A", 1, 2⟩], [⟨1, 0, 0, 0⟩], ⟨0, 0, 0⟩, [1], [], []⟩
    20000010002 20000000004 rfl rfl rfl rfl (by decide) (by decide) (by decide)

end MHWilds

namespace MHWilds

/-! ## Claim C7: solve status and solution extraction

`solve` (the tail after `solver.solve(model)`): it builds the
`solver_statuses` mapping but never branches on the returned status; the
three extraction loops (armor booleans, charm booleans, jewel-use
integers) run unconditionally, reading values through `solver.value`.
Per the backend contract, the response carries an assignment only on an
OPTIMAL or FEASIBLE status; on INFEASIBLE / MODEL_INVALID there is none
and every `solver.value` call raises.  The response's assignment is
modelled as `Option (Nat → Int)` (variables named by index), `none` when
the status carries no solution. -/

/-- The five CP-SAT statuses enumerated in `solver_statuses`. -/
inductive CpStatus where
  | OPTIMAL
  | FEASIBLE
  | INFEASIBLE
  | MODEL_INVALID
  | UNKNOWN
deriving Repr, DecidableEq

/-- The decoded solution dictionary. -/
structure SolutionRec where
  weapon : String
  pieces : List (String × String)
  charm : Option String
  jewels : List (String × Int)
deriving Repr, DecidableEq

/-- From `solver.value(var)`: fails when the response has no assignment. -/
def readVal (asg : Option (Nat → Int)) (v : Nat) : Except String Int :=
  match asg with
  | some f => Except.ok (f v)
  | none => Except.error "no solution available"

/-- One `for name, var in var_dict.items(): if value(var) == 1:
solution[key] = name` loop: every variable is read; the dict entry keeps
the last name whose boolean reads 1. -/
def pickEquipped (asg : Option (Nat → Int)) (vars : List (String × Nat)) :
    Except String (Option String) :=
  vars.foldlM (fun acc nv => do
    let v ← readVal asg nv.2
    pure (if v = 1 then some nv.1 else acc)) none

/-- The armor loop over `use_armor_piece_booleans.items()`. -/
def extractPieces (asg : Option (Nat → Int)) :
    List (String × List (String × Nat)) →
    Except String (List (String × String))
  | [] => Except.ok []
  | (gear, vars) :: rest => do
    let chosen ← pickEquipped asg vars
    let others ← extractPieces asg rest
    match chosen with
    | some n => pure ((gear, n) :: others)
    | none => pure others

/-- One jewel dict: `if value(var) > 0: solution["jewels"][name] = value`. -/
def collectJewels (asg : Option (Nat → Int)) (vars : List (String × Nat)) :
    Except String (List (String × Int)) :=
  vars.foldlM (fun acc nv => do
    let v ← readVal asg nv.2
    pure (if 0 < v then acc ++ [(nv.1, v)] else acc)) []

/-- The loop over `jewel_uses_integers.values()`. -/
def extractJewelDicts (asg : Option (Nat → Int)) :
    List (List (String × Nat)) → Except String (List (String × Int))
  | [] => Except.ok []
  | dict :: rest => do
    let here ← collectJewels asg dict
    let there ← extractJewelDicts asg rest
    pure (here ++ there)

/-- The tail of `solve` after the backend call: the status is mapped to
a name but never consulted; extraction runs unconditionally and the
assembled dictionary is returned. -/
def solveTail (status : CpStatus) (asg : Option (Nat → Int))
    (weaponName : String)
    (armorBools : List (String × List (String × Nat)))
    (charmBools : List (String × Nat))
    (jewelDicts : List (List (String × Nat))) :
    Except String SolutionRec := do
  let pieces ← extractPieces asg armorBools
  let charm ← pickEquipped asg charmBools
  let jewels ← extractJewelDicts asg jewelDicts
  pure ⟨weaponName, pieces, charm, jewels⟩

/-- Claim C7, counterexample.  The extraction phase is not gated on the
status: handed an INFEASIBLE status together with readable values, the
tail of `solve` still runs the extraction loops and assembles a full
Solution, so "the extraction phase runs only on an optimal or feasible
status" is false of the code — the `solver_statuses` mapping is dead and
no status check exists. -/
theorem extraction_not_status_gated_counterexample :
    solveTail CpStatus.INFEASIBLE (some (fun _ => 1)) "GreatSword"
        [("head", [("HelmA", 0)])] [] []
      = Except.ok ⟨"GreatSword", [("head", "HelmA")], none, []⟩ := by
  rfl

/-- Claim C7, amended.  `solve` never consults the status; extraction runs
unconditionally, and on a status whose response carries no assignment
(INFEASIBLE, MODEL_INVALID) the very first `solver.value` read fails, so
an error propagates and no Solution is assembled — the non-solution
outcome is an uncaught read failure, not a status gate. -/
theorem no_solution_extraction_fails (status : CpStatus)
    (weaponName gear piece : String) (varId : Nat)
    (lrest : List (String × Nat))
    (armorRest : List (String × List (String × Nat)))
    (charmBools : List (String × Nat))
    (jewelDicts : List (List (String × Nat))) :
    solveTail status none weaponName
        ((gear, (piece, varId) :: lrest) :: armorRest) charmBools jewelDicts
      = Except.error "no solution available" := by
  rfl

end MHWilds
